import Mathlib

/-!
# Verification of the PPT-Compatible MP4 Converter core

Shallow embedding of `src/mp4_converter.py`.  Python floats are modelled as
exact rationals (`ℚ`); Python exceptions are modelled with `Option`/`Except`;
the external tools (ffmpeg/ffprobe), the filesystem, and the GUI are modelled
as oracles supplied to the pure functions that embed the orchestration code.
-/

namespace Mp4Conv

/-! ## Python numeric primitives -/

/-- Model of `math.isclose(a, b, rel_tol=rel, abs_tol=atol)`:
`|a-b| <= max(rel*max(|a|,|b|), atol)`. -/
def pyIsClose (a b rel atol : ℚ) : Bool :=
  |a - b| ≤ max (rel * max |a| |b|) atol

/-- Round-half-to-even on rationals, the rounding used by Python's builtin
`round` (on our exact-rational model of floats). -/
def rhe (q : ℚ) : ℤ :=
  if q - ⌊q⌋ < 1/2 then ⌊q⌋
  else if 1/2 < q - ⌊q⌋ then ⌊q⌋ + 1
  else if 2 ∣ ⌊q⌋ then ⌊q⌋ else ⌊q⌋ + 1

/-- Model of Python `round(q, 3)`. -/
def round3 (q : ℚ) : ℚ := (rhe (1000 * q) : ℚ) / 1000

/-! ## String utilities shared by the builders -/

/-- Python `sep.join(parts)`. -/
def pyJoin (sep : String) : List String → String
  | [] => ""
  | [x] => x
  | x :: y :: xs => x ++ sep ++ pyJoin sep (y :: xs)

/-! ## Tempo Decomposer (`build_atempo_expr`, src lines 48-71)

The two `while` loops are embedded as fuel-indexed recursions; the fuel
arguments used by `build_atempo_factors` are proved sufficient below (the
remainder satisfies the loop's exit condition), so the fuel form computes
exactly what the source's loops compute.  Each loop returns the emitted
factors together with the final `remaining`. -/

/-- Embeds `while remaining > 2.0: factors.append(2.0); remaining /= 2.0`. -/
def halveFuel : ℕ → ℚ → List ℚ × ℚ
  | 0, r => ([], r)
  | n + 1, r =>
    if 2 < r then
      let p := halveFuel n (r / 2)
      (2 :: p.1, p.2)
    else ([], r)

/-- Embeds `while remaining < 0.5: factors.append(0.5); remaining /= 0.5`. -/
def doubleFuel : ℕ → ℚ → List ℚ × ℚ
  | 0, r => ([], r)
  | n + 1, r =>
    if r < 1/2 then
      let p := doubleFuel n (2 * r)
      (1/2 :: p.1, p.2)
    else ([], r)

/-- The list `factors` built by `build_atempo_expr` (src lines 53-69):
coerce non-positive speed to 1, run the two loops, round the residual to
3 decimals, and append it unless it is `math.isclose` to 1. -/
def build_atempo_factors (speed : ℚ) : List ℚ :=
  let s := if speed ≤ 0 then 1 else speed
  let p1 := halveFuel (⌈s⌉.toNat) s
  let p2 := doubleFuel (⌈1 / p1.2⌉.toNat) p1.2
  let factors := p1.1 ++ p2.1
  let r := round3 p2.2
  if pyIsClose r 1 (1/1000) (1/1000) then factors else factors ++ [r]

/-- The tempo factors actually emitted in the returned expression: when
`factors` is empty the source returns the identity stage `"atempo=1.0"`,
i.e. it emits the single factor 1. -/
def atempoFactors (speed : ℚ) : List ℚ :=
  let fs := build_atempo_factors speed
  if fs = [] then [1] else fs

/-- Embeds the returned expression: the comma-join of one `atempo=` stage per
factor, or `"atempo=1.0"` when no factor was produced (numeric formatting is
`toString` on `ℚ` rather than Python float repr; no claim depends on the
digits). -/
def build_atempo_expr (speed : ℚ) : String :=
  let fs := build_atempo_factors speed
  if fs = [] then "atempo=1.0"
  else pyJoin "," (fs.map (fun f => "atempo=" ++ toString f))

/-! ### Invariants of the two tempo loops -/

theorem halveFuel_prod (n : ℕ) (r : ℚ) :
    (halveFuel n r).1.prod * (halveFuel n r).2 = r := by
  induction n generalizing r with
  | zero => simp [halveFuel]
  | succ n ih =>
    by_cases h : 2 < r
    · simp only [halveFuel, if_pos h, List.prod_cons]
      rw [mul_assoc, ih]
      ring
    · simp [halveFuel, if_neg h]

theorem halveFuel_factors (n : ℕ) (r : ℚ) :
    ∀ f ∈ (halveFuel n r).1, f = 2 := by
  induction n generalizing r with
  | zero => simp [halveFuel]
  | succ n ih =>
    by_cases h : 2 < r
    · simp only [halveFuel, if_pos h, List.mem_cons]
      rintro f (rfl | hf)
      · rfl
      · exact ih (r / 2) f hf
    · simp [halveFuel, if_neg h]

theorem halveFuel_pos (n : ℕ) (r : ℚ) (hr : 0 < r) : 0 < (halveFuel n r).2 := by
  induction n generalizing r with
  | zero => simpa [halveFuel] using hr
  | succ n ih =>
    by_cases h : 2 < r
    · simpa [halveFuel, if_pos h] using ih (r / 2) (by positivity)
    · simpa [halveFuel, if_neg h] using hr

theorem halveFuel_le (n : ℕ) (r : ℚ) (h : r ≤ 2 * 2 ^ n) : (halveFuel n r).2 ≤ 2 := by
  induction n generalizing r with
  | zero =>
    simp only [halveFuel]
    simpa using h
  | succ n ih =>
    by_cases hc : 2 < r
    · simp only [halveFuel, if_pos hc]
      refine ih (r / 2) ?_
      have : (2:ℚ) * 2 ^ (n + 1) = 2 * (2 * 2 ^ n) := by ring
      rw [this] at h
      linarith
    · simpa [halveFuel, if_neg hc] using le_of_not_lt hc

theorem halveFuel_lower (n : ℕ) (r : ℚ) :
    (halveFuel n r).2 = r ∨ 1 < (halveFuel n r).2 := by
  induction n generalizing r with
  | zero => simp [halveFuel]
  | succ n ih =>
    by_cases h : 2 < r
    · simp only [halveFuel, if_pos h]
      rcases ih (r / 2) with heq | hgt
      · right; rw [heq]; linarith
      · right; exact hgt
    · simp [halveFuel, if_neg h]

theorem doubleFuel_prod (n : ℕ) (r : ℚ) :
    (doubleFuel n r).1.prod * (doubleFuel n r).2 = r := by
  induction n generalizing r with
  | zero => simp [doubleFuel]
  | succ n ih =>
    by_cases h : r < 1/2
    · simp only [doubleFuel, if_pos h, List.prod_cons]
      rw [mul_assoc, ih]
      ring
    · simp only [doubleFuel, if_neg h]
      simp

theorem doubleFuel_factors (n : ℕ) (r : ℚ) :
    ∀ f ∈ (doubleFuel n r).1, f = 1/2 := by
  induction n generalizing r with
  | zero => simp [doubleFuel]
  | succ n ih =>
    by_cases h : r < 1/2
    · simp only [doubleFuel, if_pos h, List.mem_cons]
      rintro f (rfl | hf)
      · rfl
      · exact ih (2 * r) f hf
    · simp only [doubleFuel, if_neg h]
      simp

theorem doubleFuel_ge (n : ℕ) (r : ℚ) (h : 1/2 ≤ 2 ^ n * r) :
    1/2 ≤ (doubleFuel n r).2 := by
  induction n generalizing r with
  | zero =>
    simp only [doubleFuel]
    simpa using h
  | succ n ih =>
    by_cases hc : r < 1/2
    · simp only [doubleFuel, if_pos hc]
      refine ih (2 * r) ?_
      have : (2:ℚ) ^ n * (2 * r) = 2 ^ (n + 1) * r := by ring
      rw [this]
      exact h
    · simp only [doubleFuel, if_neg hc]
      exact le_of_not_lt hc

theorem doubleFuel_le (n : ℕ) (r : ℚ) : (doubleFuel n r).2 ≤ max r 1 := by
  induction n generalizing r with
  | zero => simp [doubleFuel]
  | succ n ih =>
    by_cases h : r < 1/2
    · simp only [doubleFuel, if_pos h]
      refine le_trans (ih (2 * r)) (max_le (le_max_of_le_right ?_) (le_max_right r 1))
      linarith
    · simp only [doubleFuel, if_neg h]
      exact le_max_left r 1

/-- The fuel `⌈r⌉.toNat` used by `build_atempo_factors` lets the halving loop
run to its exit condition. -/
theorem halve_fuel_suff (r : ℚ) (hr : 0 < r) : r ≤ 2 * 2 ^ ⌈r⌉.toNat := by
  have hceil : (0:ℤ) < ⌈r⌉ := Int.ceil_pos.mpr hr
  have h1 : ((⌈r⌉.toNat : ℕ) : ℚ) = ((⌈r⌉ : ℤ) : ℚ) := by
    exact_mod_cast congrArg (fun z : ℤ => (z : ℚ)) (Int.toNat_of_nonneg hceil.le)
  have h2 : r ≤ ((⌈r⌉ : ℤ) : ℚ) := Int.le_ceil r
  have h3 : ((⌈r⌉.toNat : ℕ) : ℚ) < 2 ^ ⌈r⌉.toNat := by
    exact_mod_cast Nat.lt_two_pow ⌈r⌉.toNat
  have h4 : (0:ℚ) < 2 ^ ⌈r⌉.toNat := by positivity
  linarith

/-- The fuel `⌈1/r⌉.toNat` used by `build_atempo_factors` lets the doubling
loop run to its exit condition. -/
theorem double_fuel_suff (r : ℚ) (hr : 0 < r) : 1/2 ≤ 2 ^ ⌈1/r⌉.toNat * r := by
  have h0 : 0 < 1/r := by positivity
  have hceil : (0:ℤ) < ⌈1/r⌉ := Int.ceil_pos.mpr h0
  have h1 : ((⌈1/r⌉.toNat : ℕ) : ℚ) = ((⌈1/r⌉ : ℤ) : ℚ) := by
    exact_mod_cast congrArg (fun z : ℤ => (z : ℚ)) (Int.toNat_of_nonneg hceil.le)
  have h2 : 1/r ≤ ((⌈1/r⌉ : ℤ) : ℚ) := Int.le_ceil _
  have h3 : ((⌈1/r⌉.toNat : ℕ) : ℚ) < 2 ^ ⌈1/r⌉.toNat := by
    exact_mod_cast Nat.lt_two_pow ⌈1/r⌉.toNat
  have h5 : 1/r ≤ 2 ^ ⌈1/r⌉.toNat := by linarith
  have h6 : 1/r * r ≤ 2 ^ ⌈1/r⌉.toNat * r :=
    mul_le_mul_of_nonneg_right h5 hr.le
  rw [one_div_mul_cancel hr.ne'] at h6
  linarith

/-! ### Rounding lemmas -/

theorem floor_le_rhe (q : ℚ) : ⌊q⌋ ≤ rhe q := by
  unfold rhe
  split_ifs <;> omega

theorem rhe_le_ceil (q : ℚ) : rhe q ≤ ⌈q⌉ := by
  have hfc : ⌊q⌋ ≤ ⌈q⌉ := Int.floor_le_ceil q
  have hkey : ¬ q - ⌊q⌋ < 1/2 → ⌊q⌋ + 1 ≤ ⌈q⌉ := by
    intro h
    have h1 : ((⌊q⌋ : ℤ) : ℚ) < q := by
      have := not_lt.mp h
      linarith
    have h2 : q ≤ ((⌈q⌉ : ℤ) : ℚ) := Int.le_ceil q
    have h3 : ((⌊q⌋ : ℤ) : ℚ) < ((⌈q⌉ : ℤ) : ℚ) := lt_of_lt_of_le h1 h2
    have h4 : ⌊q⌋ < ⌈q⌉ := by exact_mod_cast h3
    omega
  unfold rhe
  split_ifs with c1 c2 c3
  · exact hfc
  · exact hkey c1
  · exact hfc
  · exact hkey c1

theorem rhe_abs (q : ℚ) : |((rhe q : ℤ) : ℚ) - q| ≤ 1/2 := by
  have hlow : ((⌊q⌋ : ℤ) : ℚ) ≤ q := Int.floor_le q
  have hhigh : q < ((⌊q⌋ : ℤ) : ℚ) + 1 := Int.lt_floor_add_one q
  unfold rhe
  split_ifs with c1 c2 c3 <;> rw [abs_le] <;> push_cast <;> constructor <;> linarith

theorem round3_abs (q : ℚ) : |round3 q - q| ≤ 1/2000 := by
  have h := rhe_abs (1000 * q)
  have heq : round3 q - q = (((rhe (1000 * q) : ℤ) : ℚ) - 1000 * q) / 1000 := by
    unfold round3
    ring
  rw [heq, abs_div]
  have : |(1000:ℚ)| = 1000 := by norm_num
  rw [this]
  linarith

theorem round3_lb (q : ℚ) (h1 : 1/2 ≤ q) : 1/2 ≤ round3 q := by
  have hfl : (500:ℤ) ≤ ⌊1000 * q⌋ := by
    rw [Int.le_floor]
    push_cast
    linarith
  have h2 : (500:ℤ) ≤ rhe (1000 * q) := le_trans hfl (floor_le_rhe _)
  have h3 : ((500:ℤ) : ℚ) ≤ ((rhe (1000 * q) : ℤ) : ℚ) := by exact_mod_cast h2
  unfold round3
  push_cast at h3 ⊢
  linarith

theorem round3_ub (q : ℚ) (h2 : q ≤ 2) : round3 q ≤ 2 := by
  have hcl : ⌈1000 * q⌉ ≤ (2000:ℤ) := by
    rw [Int.ceil_le]
    push_cast
    linarith
  have h3 : rhe (1000 * q) ≤ (2000:ℤ) := le_trans (rhe_le_ceil _) hcl
  have h4 : ((rhe (1000 * q) : ℤ) : ℚ) ≤ ((2000:ℤ) : ℚ) := by exact_mod_cast h3
  unfold round3
  push_cast at h4 ⊢
  linarith

/-- C1: for every speed multiplier `s > 0` given to the Tempo Decomposer
(`build_atempo_expr`), the product of the emitted tempo factors equals `s`
within 0.5% relative tolerance, and every emitted factor lies in the
inclusive range `[0.5, 2.0]`. -/
theorem atempo_factors_range_and_product (s : ℚ) (hs : 0 < s) :
    (∀ f ∈ atempoFactors s, 1/2 ≤ f ∧ f ≤ 2) ∧
    |(atempoFactors s).prod - s| ≤ 5/1000 * s := by
  have hs' : ¬ s ≤ 0 := not_le.mpr hs
  simp only [atempoFactors, build_atempo_factors, if_neg hs']
  set k1 := ⌈s⌉.toNat with hk1
  set p1 := halveFuel k1 s with hp1def
  set k2 := ⌈1 / p1.2⌉.toNat with hk2
  set p2 := doubleFuel k2 p1.2 with hp2def
  have h1 : p1.1.prod * p1.2 = s := halveFuel_prod k1 s
  have h2 : p1.2 ≤ 2 := halveFuel_le k1 s (halve_fuel_suff s hs)
  have h3 : 0 < p1.2 := halveFuel_pos k1 s hs
  have h4 : ∀ f ∈ p1.1, f = 2 := halveFuel_factors k1 s
  have h5 : p2.1.prod * p2.2 = p1.2 := doubleFuel_prod k2 p1.2
  have h6 : 1/2 ≤ p2.2 := doubleFuel_ge k2 p1.2 (double_fuel_suff p1.2 h3)
  have h7 : p2.2 ≤ 2 := le_trans (doubleFuel_le k2 p1.2) (max_le h2 one_le_two)
  have h8 : ∀ f ∈ p2.1, f = 1/2 := doubleFuel_factors k2 p1.2
  have hprod : p1.1.prod * p2.1.prod * p2.2 = s := by
    rw [mul_assoc, h5]
    exact h1
  have hrempos : 0 < p2.2 := lt_of_lt_of_le (by norm_num) h6
  have hP : 0 < p1.1.prod * p2.1.prod := by
    by_contra hle
    push_neg at hle
    nlinarith [hprod]
  have hub : round3 p2.2 ≤ 2 := round3_ub _ h7
  have hlb : 1/2 ≤ round3 p2.2 := round3_lb _ h6
  have ht : |round3 p2.2 - p2.2| ≤ 1/2000 := round3_abs p2.2
  by_cases hc : pyIsClose (round3 p2.2) 1 (1/1000) (1/1000) = true
  · rw [if_pos hc]
    have hc' : |round3 p2.2 - 1| ≤ max (1/1000 * max |round3 p2.2| |(1:ℚ)|) (1/1000) := by
      simpa only [pyIsClose, decide_eq_true_eq] using hc
    have habs : |round3 p2.2| = round3 p2.2 := abs_of_pos (by linarith)
    have hcle : |round3 p2.2 - 1| ≤ 1/500 := by
      refine le_trans hc' (max_le ?_ (by norm_num))
      rw [habs]
      have hm : max (round3 p2.2) |(1:ℚ)| ≤ 2 := by
        rw [abs_one]
        exact max_le hub one_le_two
      linarith
    have hrem_close : |p2.2 - 1| ≤ 1/400 := by
      have heq : p2.2 - 1 = (p2.2 - round3 p2.2) + (round3 p2.2 - 1) := by ring
      rw [heq]
      refine le_trans (abs_add _ _) ?_
      rw [abs_sub_comm p2.2 (round3 p2.2)]
      linarith
    rw [abs_le] at hrem_close
    by_cases hnil : p1.1 ++ p2.1 = []
    · rw [if_pos hnil]
      rcases List.append_eq_nil.mp hnil with ⟨e1, e2⟩
      have hP1 : p1.1.prod * p2.1.prod = 1 := by
        rw [e1, e2]
        simp
      have hsrem : s = p2.2 := by
        rw [← hprod, hP1, one_mul]
      constructor
      · intro f hf
        simp only [List.mem_singleton] at hf
        subst hf
        norm_num
      · rw [List.prod_singleton, hsrem, abs_le]
        constructor <;> linarith
    · rw [if_neg hnil]
      constructor
      · intro f hf
        rcases List.mem_append.mp hf with hf1 | hf2
        · rw [h4 f hf1]; norm_num
        · rw [h8 f hf2]; norm_num
      · rw [List.prod_append]
        have key : p1.1.prod * p2.1.prod - s
            = (p1.1.prod * p2.1.prod) * (1 - p2.2) := by
          rw [← hprod]; ring
        rw [key, abs_mul, abs_of_pos hP, ← hprod]
        have habs1 : |1 - p2.2| ≤ 1/400 := by
          rw [abs_le]
          constructor <;> linarith
        have h399 : (0:ℚ) ≤ p2.2 - 399/400 := by linarith
        have hint1 := mul_le_mul_of_nonneg_left habs1 hP.le
        have hint2 := mul_nonneg hP.le h399
        nlinarith [hint1, hint2]
  · rw [if_neg hc]
    have hne : p1.1 ++ p2.1 ++ [round3 p2.2] ≠ [] := by simp
    rw [if_neg hne]
    constructor
    · intro f hf
      rcases List.mem_append.mp hf with hf0 | hfr
      · rcases List.mem_append.mp hf0 with hf1 | hf2
        · rw [h4 f hf1]; norm_num
        · rw [h8 f hf2]; norm_num
      · simp only [List.mem_singleton] at hfr
        subst hfr
        exact ⟨hlb, hub⟩
    · rw [List.prod_append, List.prod_append, List.prod_singleton]
      have key2 : p1.1.prod * p2.1.prod * round3 p2.2 - s
          = (p1.1.prod * p2.1.prod) * (round3 p2.2 - p2.2) := by
        rw [← hprod]; ring
      rw [key2, abs_mul, abs_of_pos hP, ← hprod]
      have hint1 := mul_le_mul_of_nonneg_left ht hP.le
      have hhalf : (0:ℚ) ≤ p2.2 - 1/2 := by linarith
      have hint2 := mul_nonneg hP.le hhalf
      nlinarith [hint1, hint2]

theorem atempo_factors_range_and_product_witness :
    0 < (3:ℚ) ∧
      ((∀ f ∈ atempoFactors 3, 1/2 ≤ f ∧ f ≤ 2) ∧
        |(atempoFactors 3).prod - 3| ≤ 5/1000 * 3) :=
  ⟨by norm_num, atempo_factors_range_and_product 3 (by norm_num)⟩

/-- C9: for every (finite, i.e. rational-modelled) speed `s > 0` the two
loops of `build_atempo_expr` terminate: the halving loop reaches a remainder
`≤ 2` in finitely many steps and, from there, the doubling loop reaches a
remainder `≥ 1/2` in finitely many steps. -/
theorem atempo_loops_terminate (s : ℚ) (hs : 0 < s) :
    ∃ n : ℕ, (halveFuel n s).2 ≤ 2 ∧
      ∃ m : ℕ, 1/2 ≤ (doubleFuel m (halveFuel n s).2).2 := by
  refine ⟨⌈s⌉.toNat, halveFuel_le _ _ (halve_fuel_suff s hs), ?_⟩
  have h3 : 0 < (halveFuel ⌈s⌉.toNat s).2 := halveFuel_pos _ _ hs
  exact ⟨⌈1 / (halveFuel ⌈s⌉.toNat s).2⌉.toNat,
    doubleFuel_ge _ _ (double_fuel_suff _ h3)⟩

theorem atempo_loops_terminate_witness :
    0 < (5:ℚ) ∧
      ∃ n : ℕ, (halveFuel n 5).2 ≤ 2 ∧
        ∃ m : ℕ, 1/2 ≤ (doubleFuel m (halveFuel n 5).2).2 :=
  ⟨by norm_num, atempo_loops_terminate 5 (by norm_num)⟩

/-! ## Probe Adapter (`run_cmd` + `has_audio_stream`, src lines 27-42)

`run_cmd` spawns the probing tool via `subprocess.Popen` (src line 28) and
returns `(returncode, stdout, stderr)`.  Crucially, `has_audio_stream` calls
`run_cmd` at src line 34, *before* its `try` block at src line 37: the spawn
itself raising (e.g. `FileNotFoundError` when the tool is not on PATH) is
not caught anywhere in `has_audio_stream` and propagates to the caller.
The spawn's behaviour is therefore an `Except`-valued oracle: `.error e`
models `Popen` raising, `.ok (code, out)` models the tool running and
returning exit code `code` with stdout whose `json.loads` parse is `out`
(`none` when parsing raises — which, unlike the spawn, *is* inside the
`try`).  Python operations that can raise inside the `try` block are
embedded in `Except String`; the `except Exception` handler is the final
`match` mapping any such error to `false`. -/

/-- JSON values, as far as the probe path inspects them. -/
inductive Json where
  | null
  | bool (b : Bool)
  | num (q : ℚ)
  | str (s : String)
  | arr (elems : List Json)
  | obj (fields : List (String × Json))

/-- Embeds `data.get("streams", [])`: raises (`AttributeError`) unless `data` is a
dict; missing key yields the default. -/
def pyDictGetD (d : Json) (k : String) (dflt : Json) : Except String Json :=
  match d with
  | .obj fs => .ok ((fs.lookup k).getD dflt)
  | _ => .error "AttributeError"

/-- Iterating `for s in streams`: only a JSON array yields the stream
descriptors themselves.  (Python would also iterate a dict or a string, but
then every element is a string, whose `.get` raises — observably identical
to the error case, which the caller maps to `false`.) -/
def pyIterList (j : Json) : Except String (List Json) :=
  match j with
  | .arr xs => .ok xs
  | _ => .error "TypeError"

/-- Embeds `s.get("codec_type") == "audio"` for one stream descriptor `s`:
raises unless `s` is a dict; a missing key gives `None`, which compares
unequal to `"audio"`. -/
def streamIsAudio (s : Json) : Except String Bool :=
  match s with
  | .obj fs =>
    .ok (match (fs.lookup "codec_type").getD .null with
         | .str c => c = "audio"
         | _ => false)
  | _ => .error "AttributeError"

/-- Embeds the generator test over the streams: short-circuits at
the first audio stream, raising only if a descriptor inspected before that
point is not a dict. -/
def anyAudio : List Json → Except String Bool
  | [] => .ok false
  | s :: rest => do
    let b ← streamIsAudio s
    if b then pure true else anyAudio rest

/-- The body of the `try` block of `has_audio_stream` (src lines 38-40),
given the parsed JSON document. -/
def probeBody (data : Json) : Except String Bool := do
  let streams ← pyDictGetD data "streams" (.arr [])
  let xs ← pyIterList streams
  anyAudio xs

/-- Embeds `has_audio_stream` (src lines 32-42) together with its `run_cmd`
call (src line 34).  The `.error` branch is the spawn of the probing tool
raising: the call sits before the `try` block, so the exception propagates
to the caller unchanged.  The `.ok` branch is lines 35-42: non-zero exit
code, unparseable stdout, and any fault while inspecting the parsed
document all yield `false`. -/
def has_audio_stream (probe : Except String (ℤ × Option Json)) :
    Except String Bool :=
  match probe with
  | .error e => .error e
  | .ok (code, out) =>
    .ok (if code ≠ 0 then false
         else
           match out with
           | none => false
           | some data =>
             match probeBody data with
             | .ok b => b
             | .error _ => false)

/-- C2, as stated, fails on the code: `run_cmd` is called before the `try`
block of `has_audio_stream`, so at the concrete probe oracle where spawning
the tool raises (the `FileNotFoundError` of a missing ffprobe) the adapter
propagates the exception to its caller instead of answering "no audio
stream" — it does raise. -/
theorem has_audio_stream_spawn_raises :
    has_audio_stream (Except.error "FileNotFoundError")
      = Except.error "FileNotFoundError" := rfl

/-- C2 (amended: the never-raises guarantee holds only once the probing
tool has been spawned successfully — a spawn failure propagates to the
caller, as the counterexample shows): whenever `run_cmd` returns an exit
code and output, the Probe Adapter returns a `Bool` to its caller (never
raises), and whenever that exit code is non-zero, or the output is
malformed or unparseable, or inspecting the parsed output faults, the
answer is `false` ("no audio stream"). -/
theorem has_audio_stream_fail_closed (code : ℤ) (out : Option Json)
    (h : code ≠ 0 ∨ out = none ∨
      ∃ d e, out = some d ∧ probeBody d = .error e) :
    has_audio_stream (Except.ok (code, out)) = Except.ok false ∧
    ∀ (code2 : ℤ) (out2 : Option Json), ∃ b : Bool,
      has_audio_stream (Except.ok (code2, out2)) = Except.ok b := by
  constructor
  · rcases h with hc | hnone | ⟨d, e, hd, herr⟩
    · simp [has_audio_stream, hc]
    · subst hnone
      simp only [has_audio_stream]
      split_ifs <;> rfl
    · subst hd
      simp only [has_audio_stream, herr]
      split_ifs <;> rfl
  · intro code2 out2
    exact ⟨_, rfl⟩

theorem has_audio_stream_fail_closed_witness :
    ((1:ℤ) ≠ 0 ∨ (some (Json.num 5) : Option Json) = none ∨
      ∃ d e, (some (Json.num 5) : Option Json) = some d ∧ probeBody d = .error e) ∧
    (has_audio_stream (Except.ok (1, some (Json.num 5))) = Except.ok false ∧
      ∀ (code2 : ℤ) (out2 : Option Json), ∃ b : Bool,
        has_audio_stream (Except.ok (code2, out2)) = Except.ok b) :=
  ⟨Or.inl (by decide),
   has_audio_stream_fail_closed 1 (some (Json.num 5)) (Or.inl (by decide))⟩

/-! ## Quality profiles (`PROFILES`, src lines 73-77) -/

structure ProfileCfg where
  profile : String
  level : String
  preset : String
  crf : String
deriving DecidableEq

def profileMostCompatible : ProfileCfg :=
  ⟨"baseline", "3.1", "veryfast", "20"⟩

def profileBalanced : ProfileCfg :=
  ⟨"main", "4.0", "faster", "20"⟩

def profileHigh : ProfileCfg :=
  ⟨"high", "4.1", "fast", "18"⟩

/-- The fixed set of three built-in profiles (the values of `PROFILES`). -/
def profilesList : List ProfileCfg :=
  [profileMostCompatible, profileBalanced, profileHigh]

/-! ## Speed resolution (`parse_speed`, src lines 81-89)

`float(...)` is the Python builtin; it is modelled by `pyFloat` below on
decimal literals (optionally signed, with optional fraction and exponent).
The builtin additionally accepts `"inf"`/`"nan"` spellings and digit-group
underscores, which have no exact-rational counterpart and are not needed by
any claim; `pyFloat` treats them as unparseable. -/

/-- Embeds `str.strip()`: remove leading and trailing whitespace. -/
def pyStrip (s : String) : String :=
  String.mk (((s.data.dropWhile Char.isWhitespace).reverse.dropWhile
    Char.isWhitespace).reverse)

/-- Embeds `str.lower()`. -/
def pyLower (s : String) : String :=
  String.mk (s.data.map Char.toLower)

/-- Embeds `str.replace("x", "")`. -/
def removeX (s : String) : String :=
  String.mk (s.data.filter (fun c => c ≠ 'x'))

/-- Value of a digit string. -/
def digitsToNat (l : List Char) : ℕ :=
  l.foldl (fun acc c => acc * 10 + (c.toNat - 48)) 0

/-- Split a char list into its leading digits and the rest. -/
def spanDigits : List Char → List Char × List Char
  | [] => ([], [])
  | c :: cs =>
    if c.isDigit then
      let p := spanDigits cs
      (c :: p.1, p.2)
    else ([], c :: cs)

/-- The rational value `±(ip.fp) · 10^ex` denoted by a decimal literal. -/
def ratOfParts (neg : Bool) (ip fp : List Char) (ex : ℤ) : ℚ :=
  (if neg then -1 else 1) *
    ((digitsToNat ip : ℚ) + (digitsToNat fp : ℚ) / 10 ^ fp.length) * 10 ^ ex

/-- Exponent suffix after `e`/`E`: optional sign then at least one digit. -/
def parseExpPart (cs : List Char) : Option ℤ :=
  let sp : ℤ × List Char :=
    match cs with
    | '+' :: t => (1, t)
    | '-' :: t => (-1, t)
    | _ => (1, cs)
  let p := spanDigits sp.2
  if p.1 ≠ [] ∧ p.2 = [] then some (sp.1 * digitsToNat p.1) else none

def pyFloatCore (cs0 : List Char) : Option ℚ :=
  let sp : Bool × List Char :=
    match cs0 with
    | '+' :: t => (false, t)
    | '-' :: t => (true, t)
    | _ => (false, cs0)
  let pInt := spanDigits sp.2
  let pFrac : List Char × List Char :=
    match pInt.2 with
    | '.' :: t => spanDigits t
    | _ => ([], pInt.2)
  if pInt.1 = [] ∧ pFrac.1 = [] then none
  else
    match pFrac.2 with
    | [] => some (ratOfParts sp.1 pInt.1 pFrac.1 0)
    | 'e' :: t =>
      match parseExpPart t with
      | some e => some (ratOfParts sp.1 pInt.1 pFrac.1 e)
      | none => none
    | 'E' :: t =>
      match parseExpPart t with
      | some e => some (ratOfParts sp.1 pInt.1 pFrac.1 e)
      | none => none
    | _ => none

/-- Model of the Python builtin `float` on a string (see the section note). -/
def pyFloat (s : String) : Option ℚ :=
  pyFloatCore s.data

/-- Embeds `parse_speed(preset, custom)` (src lines 81-89).  The custom branch
catches any parse failure and rejects non-positive values, falling back
to 1; the preset branch parses `preset.replace("x", "")` with no fallback
(`none` models the uncaught exception for an invalid preset, which cannot
happen for the fixed preset list). -/
def parse_speed (preset custom : String) : Option ℚ :=
  if preset = "Custom…" then
    some (match pyFloat (removeX (pyLower (pyStrip custom))) with
          | some v => if 0 < v then v else 1
          | none => 1)
  else
    pyFloat (removeX preset)

/-- C7: speed resolution maps preset `"2.0x"` to 2, custom `"1.15x"` to
1.15, custom `"abc"` and custom `"-3"` to the fallback 1; and every custom
input resolves to a strictly positive multiplier. -/
theorem parse_speed_spec :
    (∀ c : String, parse_speed "2.0x" c = some 2) ∧
    parse_speed "Custom…" "1.15x" = some (23/20) ∧
    parse_speed "Custom…" "abc" = some 1 ∧
    parse_speed "Custom…" "-3" = some 1 ∧
    ∀ c : String, ∃ v : ℚ, parse_speed "Custom…" c = some v ∧ 0 < v := by
  refine ⟨?_, ?_, ?_, ?_, ?_⟩
  · intro c
    rw [parse_speed, if_neg (by decide)]
    have h1 : removeX "2.0x" = "2.0" := rfl
    have h2 : pyFloat "2.0" = some (ratOfParts false ['2'] ['0'] 0) := rfl
    have hv : ratOfParts false ['2'] ['0'] 0 = 2 := by
      have d1 : digitsToNat ['2'] = 2 := rfl
      have d2 : digitsToNat ['0'] = 0 := rfl
      simp only [ratOfParts, d1, d2, List.length]
      norm_num
    rw [h1, h2, hv]
  · rw [parse_speed, if_pos rfl]
    have h1 : removeX (pyLower (pyStrip "1.15x")) = "1.15" := rfl
    have h2 : pyFloat "1.15" = some (ratOfParts false ['1'] ['1','5'] 0) := rfl
    have hv : ratOfParts false ['1'] ['1','5'] 0 = 23/20 := by
      have d1 : digitsToNat ['1'] = 1 := rfl
      have d2 : digitsToNat ['1','5'] = 15 := rfl
      simp only [ratOfParts, d1, d2, List.length]
      norm_num
    rw [h1, h2, hv]
    norm_num
  · rw [parse_speed, if_pos rfl]
    have h1 : removeX (pyLower (pyStrip "abc")) = "abc" := rfl
    have h2 : pyFloat "abc" = none := rfl
    rw [h1, h2]
  · rw [parse_speed, if_pos rfl]
    have h1 : removeX (pyLower (pyStrip "-3")) = "-3" := rfl
    have h2 : pyFloat "-3" = some (ratOfParts true ['3'] [] 0) := rfl
    have hv : ratOfParts true ['3'] [] 0 = -3 := by
      have d1 : digitsToNat ['3'] = 3 := rfl
      have d2 : digitsToNat ([] : List Char) = 0 := rfl
      simp only [ratOfParts, d1, d2, List.length]
      norm_num
    rw [h1, h2, hv]
    norm_num
  · intro c
    rw [parse_speed, if_pos rfl]
    rcases pyFloat (removeX (pyLower (pyStrip c))) with _ | v
    · exact ⟨1, rfl, by norm_num⟩
    · by_cases h0 : 0 < v
      · exact ⟨v, by simp [h0], h0⟩
      · exact ⟨1, by simp [h0], by norm_num⟩

/-! ## Command Builder (`build_ffmpeg_cmd`, src lines 97-148) -/

/-- Embeds `ensure_even_dimensions_filter` (src lines 44-46). -/
def ensure_even_dimensions_filter : String :=
  "scale=trunc(iw/2)*2:trunc(ih/2)*2,fps=30"

/-- Embeds `math.isclose(speed, 1.0, rel_tol=1e-6)` (default `abs_tol=0.0`),
the speed-is-identity test used twice in `build_ffmpeg_cmd`. -/
def speedIsUnity (speed : ℚ) : Bool :=
  pyIsClose speed 1 (1/1000000) 0

/-- The parts of the video filter chain `vf_parts` (src lines 105-109). -/
def vf_parts (speed : ℚ) : List String :=
  (if speedIsUnity speed then [] else ["setpts=PTS/" ++ toString speed]) ++
    [ensure_even_dimensions_filter]

/-- Embeds the joined chain `vf = ",".join(vf_parts)` (src line 110). -/
def vf_chain (speed : ℚ) : String :=
  pyJoin "," (vf_parts speed)

/-- The `base` list (src lines 112-126). -/
def base_args (inp : String) (cfg : ProfileCfg) (speed : ℚ) : List String :=
  ["ffmpeg", "-y",
   "-i", inp,
   "-map_metadata", "-1",
   "-movflags", "+faststart",
   "-vsync", "vfr",
   "-vf", vf_chain speed,
   "-r", "30",
   "-c:v", "libx264",
   "-profile:v", cfg.profile,
   "-level", cfg.level,
   "-pix_fmt", "yuv420p",
   "-preset", cfg.preset,
   "-crf", cfg.crf]

/-- The arguments appended when `add_silence` is set (src lines 128-135). -/
def silence_args : List String :=
  ["-f", "lavfi", "-t", "99999",
   "-i", "anullsrc=channel_layout=stereo:sample_rate=48000",
   "-shortest",
   "-c:a", "aac", "-b:a", "128k", "-ar", "48000", "-ac", "2",
   "-map", "0:v:0", "-map", "1:a:0"]

/-- The arguments appended when real audio is present (src lines 136-145). -/
def audio_args (speed : ℚ) (loud_norm : Bool) : List String :=
  let a_filters :=
    (if loud_norm then ["loudnorm=I=-16:TP=-1.5:LRA=11"] else []) ++
    (if speedIsUnity speed then [] else [build_atempo_expr speed])
  (if a_filters = [] then [] else ["-filter:a", pyJoin "," a_filters]) ++
    ["-c:a", "aac", "-b:a", "128k", "-ar", "48000", "-ac", "2"]

/-- Embeds `build_ffmpeg_cmd` (src lines 97-148). -/
def build_ffmpeg_cmd (inp outp : String) (cfg : ProfileCfg) (speed : ℚ)
    (loud_norm add_silence : Bool) : List String :=
  base_args inp cfg speed ++
    (if add_silence then silence_args else audio_args speed loud_norm) ++
    [outp]

/-- The video filter chain is never the audio filter flag: its only or last
part is the even-dimensions filter, so its length is far from 9. -/
theorem vf_chain_ne_filter_flag (speed : ℚ) : vf_chain speed ≠ "-filter:a" := by
  unfold vf_chain vf_parts
  by_cases h : speedIsUnity speed = true
  · rw [if_pos h]
    decide
  · rw [if_neg h]
    intro hEq
    have hlen := congrArg String.length hEq
    simp only [pyJoin, String.length_append] at hlen
    have l1 : "setpts=PTS/".length = 11 := rfl
    have l2 : ",".length = 1 := rfl
    have l3 : ensure_even_dimensions_filter.length = 40 := rfl
    have l4 : "-filter:a".length = 9 := rfl
    rw [l1, l2, l3, l4] at hlen
    omega

/-- C6: at speed exactly 1 the video filter chain of the Command Builder
is the even-dimensions stage alone — in particular it contains no
presentation-timestamp-scaling (`setpts`) stage — while for every speed the
chain contains the even-dimensions stage (`scale=trunc(iw/2)*2:trunc(ih/2)*2`,
integer halving then doubling); the chain is what the built command passes
as the value of its `-vf` flag. -/
theorem vf_unit_speed_and_even_stage (inp outp : String) (cfg : ProfileCfg)
    (loud sil : Bool) :
    vf_parts 1 = [ensure_even_dimensions_filter] ∧
    (∀ s : ℚ, ensure_even_dimensions_filter ∈ vf_parts s) ∧
    (∀ s : ℚ, ["-vf", vf_chain s] <:+: build_ffmpeg_cmd inp outp cfg s loud sil) := by
  refine ⟨?_, ?_, ?_⟩
  · have h : speedIsUnity 1 = true := by
      simp only [speedIsUnity, pyIsClose, decide_eq_true_eq]
      norm_num
    simp [vf_parts, h]
  · intro s
    simp [vf_parts]
  · intro s
    exact ⟨["ffmpeg", "-y", "-i", inp, "-map_metadata", "-1", "-movflags",
        "+faststart", "-vsync", "vfr"],
      ["-r", "30", "-c:v", "libx264", "-profile:v", cfg.profile, "-level",
        cfg.level, "-pix_fmt", "yuv420p", "-preset", cfg.preset, "-crf",
        cfg.crf] ++
        ((if sil then silence_args else audio_args s loud) ++ [outp]), rfl⟩

/-- C5: with add-silence set, the built command carries no audio-filter
flag at all — hence no atempo and no loudnorm filter argument — (the caller
paths being distinct from the literal flag, the profile one of the three
built-ins), and it always contains the synthesized silent stereo 48 kHz
source as a second input, the shortest-duration flag, the AAC 128 kbit/s
48 kHz stereo encoding arguments, and the explicit stream maps taking video
from the first input and audio from the second. -/
theorem silence_cmd_properties (inp outp : String) (cfg : ProfileCfg)
    (speed : ℚ) (loud : Bool)
    (hcfg : cfg ∈ profilesList)
    (hinp : inp ≠ "-filter:a") (houtp : outp ≠ "-filter:a") :
    "-filter:a" ∉ build_ffmpeg_cmd inp outp cfg speed loud true ∧
    ["-f", "lavfi", "-t", "99999", "-i",
      "anullsrc=channel_layout=stereo:sample_rate=48000"]
        <:+: build_ffmpeg_cmd inp outp cfg speed loud true ∧
    "-shortest" ∈ build_ffmpeg_cmd inp outp cfg speed loud true ∧
    ["-c:a", "aac", "-b:a", "128k", "-ar", "48000", "-ac", "2"]
        <:+: build_ffmpeg_cmd inp outp cfg speed loud true ∧
    ["-map", "0:v:0", "-map", "1:a:0"]
        <:+: build_ffmpeg_cmd inp outp cfg speed loud true ∧
    build_ffmpeg_cmd inp outp cfg speed loud true
      = base_args inp cfg speed ++ silence_args ++ [outp] := by
  have hvf := vf_chain_ne_filter_flag speed
  refine ⟨?_, ?_, ?_, ?_, ?_, rfl⟩
  · intro hmem
    simp only [profilesList, List.mem_cons, List.not_mem_nil, or_false] at hcfg
    simp only [build_ffmpeg_cmd, base_args, silence_args, if_true,
      List.mem_append, List.mem_cons, List.not_mem_nil] at hmem
    rcases hcfg with rfl | rfl | rfl <;>
      simp only [profileMostCompatible, profileBalanced, profileHigh] at hmem <;>
      simp [Ne.symm hinp, Ne.symm houtp, Ne.symm hvf] at hmem
  · exact ⟨base_args inp cfg speed,
      ["-shortest", "-c:a", "aac", "-b:a", "128k", "-ar", "48000", "-ac", "2",
        "-map", "0:v:0", "-map", "1:a:0"] ++ [outp], rfl⟩
  · simp [build_ffmpeg_cmd, base_args, silence_args]
  · exact ⟨base_args inp cfg speed ++
      ["-f", "lavfi", "-t", "99999", "-i",
        "anullsrc=channel_layout=stereo:sample_rate=48000", "-shortest"],
      ["-map", "0:v:0", "-map", "1:a:0"] ++ [outp], by
        simp [build_ffmpeg_cmd, silence_args]⟩
  · exact ⟨base_args inp cfg speed ++
      ["-f", "lavfi", "-t", "99999", "-i",
        "anullsrc=channel_layout=stereo:sample_rate=48000", "-shortest",
        "-c:a", "aac", "-b:a", "128k", "-ar", "48000", "-ac", "2"],
      [outp], by simp [build_ffmpeg_cmd, silence_args]⟩

theorem silence_cmd_properties_witness :
    (profileMostCompatible ∈ profilesList ∧
      "in.mov" ≠ "-filter:a" ∧ "out.mp4" ≠ "-filter:a") ∧
    ("-filter:a" ∉ build_ffmpeg_cmd "in.mov" "out.mp4" profileMostCompatible 2 false true ∧
      ["-f", "lavfi", "-t", "99999", "-i",
        "anullsrc=channel_layout=stereo:sample_rate=48000"]
          <:+: build_ffmpeg_cmd "in.mov" "out.mp4" profileMostCompatible 2 false true ∧
      "-shortest" ∈ build_ffmpeg_cmd "in.mov" "out.mp4" profileMostCompatible 2 false true ∧
      ["-c:a", "aac", "-b:a", "128k", "-ar", "48000", "-ac", "2"]
          <:+: build_ffmpeg_cmd "in.mov" "out.mp4" profileMostCompatible 2 false true ∧
      ["-map", "0:v:0", "-map", "1:a:0"]
          <:+: build_ffmpeg_cmd "in.mov" "out.mp4" profileMostCompatible 2 false true ∧
      build_ffmpeg_cmd "in.mov" "out.mp4" profileMostCompatible 2 false true
        = base_args "in.mov" profileMostCompatible 2 ++ silence_args ++ ["out.mp4"]) :=
  ⟨⟨by simp [profilesList], by decide, by decide⟩,
   silence_cmd_properties "in.mov" "out.mp4" profileMostCompatible 2 false
     (by simp [profilesList]) (by decide) (by decide)⟩

/-! ## Batch Runner (`ConverterWorker.run`, src lines 166-197)

The worker's observable behaviour is its event trace: log lines pushed to
the queue, progress callbacks, and invocations of the external encode tool.
Each task comes with a `TaskEnv` oracle fixing what the filesystem and the
external tools do for that task: whether the input file exists, whether the
output file exists, whether the input has an audio stream, whether an
unexpected exception is raised while probing (`probeFault`, e.g. the probe
tool missing from PATH) or while spawning the encoder (`encodeFault`), and
otherwise the encoder's exit code and stderr text.  `os.makedirs(...,
exist_ok=True)` has no observable event and is modelled as succeeding. -/

structure ConvTask where
  inp : String
  outp : String
deriving DecidableEq

structure TaskEnv where
  inputExists : Bool
  outputExists : Bool
  hasAudio : Bool
  probeFault : Option String
  encodeFault : Option String
  exitCode : ℤ
  errText : String
deriving DecidableEq

inductive WorkerEvent where
  | log (msg : String)
  | progress (current total : ℕ) (msg : String)
  | encode (cmd : List String)
deriving DecidableEq

/-- Split a character list at `'/'`. -/
def splitSlash : List Char → List (List Char)
  | [] => [[]]
  | c :: cs =>
    if c = '/' then [] :: splitSlash cs
    else
      match splitSlash cs with
      | [] => [[c]]
      | h :: t => (c :: h) :: t

/-- Embeds `os.path.basename` (POSIX separators). -/
def basename (p : String) : String :=
  String.mk ((splitSlash p.data).getLastD [])

/-- Events of the per-task `try` body (src lines 170-193, after the initial
progress callback), with the `except` handler's ERROR line (src line 195)
already folded in for the two modelled fault sites. -/
def taskBodyEvents (cfg : ProfileCfg) (speed : ℚ) (normalize overwrite : Bool)
    (t : ConvTask) (env : TaskEnv) : List WorkerEvent :=
  if ¬ env.inputExists then
    [.log ("[SKIP] Not found: " ++ t.inp)]
  else if env.outputExists ∧ ¬ overwrite then
    [.log ("[SKIP] Exists (enable Overwrite to replace): " ++ t.outp)]
  else
    match env.probeFault with
    | some e => [.log ("[ERROR] " ++ basename t.inp ++ ": " ++ e)]
    | none =>
      let cmd := build_ffmpeg_cmd t.inp t.outp cfg speed normalize (!env.hasAudio)
      .log ("[CMD] " ++ pyJoin " " cmd) ::
        match env.encodeFault with
        | some e => [.log ("[ERROR] " ++ basename t.inp ++ ": " ++ e)]
        | none =>
          .encode cmd ::
            if env.exitCode ≠ 0 then
              [.log ("[ERROR] " ++ basename t.inp ++ ":\n" ++ env.errText)]
            else
              [.log ("[OK] " ++ t.outp)]

/-- All events of one loop iteration (src lines 168-197): the progress
callback naming the task, the body, and the `finally` progress callback —
the latter runs on success, skip (`continue`) and caught fault alike. -/
def taskEvents (cfg : ProfileCfg) (speed : ℚ) (normalize overwrite : Bool)
    (idx total : ℕ) (t : ConvTask) (env : TaskEnv) : List WorkerEvent :=
  .progress (idx - 1) total ("Converting: " ++ basename t.inp) ::
    (taskBodyEvents cfg speed normalize overwrite t env ++
      [.progress idx total ("Done " ++ toString idx ++ "/" ++ toString total)])

/-- The loop of `ConverterWorker.run` from 1-based index `idx` on. -/
def runFrom (cfg : ProfileCfg) (speed : ℚ) (normalize overwrite : Bool)
    (total : ℕ) : ℕ → List (ConvTask × TaskEnv) → List WorkerEvent
  | _, [] => []
  | idx, (t, env) :: rest =>
    taskEvents cfg speed normalize overwrite idx total t env ++
      runFrom cfg speed normalize overwrite total (idx + 1) rest

/-- Embeds `ConverterWorker.run` on a task list paired with its per-task oracles. -/
def workerRun (cfg : ProfileCfg) (speed : ℚ) (normalize overwrite : Bool)
    (tasks : List (ConvTask × TaskEnv)) : List WorkerEvent :=
  runFrom cfg speed normalize overwrite tasks.length 1 tasks

/-- The completed counts passed to the progress callback, in order. -/
def progressCounts (evs : List WorkerEvent) : List ℕ :=
  evs.filterMap fun e =>
    match e with
    | .progress c _ _ => some c
    | _ => none

/-- The progress-count trace of a run over `k` tasks starting at index
`idx`: `idx-1, idx, idx, idx+1, ...`. -/
def countsFrom : ℕ → ℕ → List ℕ
  | _, 0 => []
  | idx, k + 1 => (idx - 1) :: idx :: countsFrom (idx + 1) k

theorem taskBody_no_progress (cfg : ProfileCfg) (speed : ℚ)
    (normalize overwrite : Bool) (t : ConvTask) (env : TaskEnv) :
    progressCounts (taskBodyEvents cfg speed normalize overwrite t env) = [] := by
  unfold taskBodyEvents
  by_cases h1 : ¬ (env.inputExists = true)
  · rw [if_pos h1]
    simp [progressCounts]
  · rw [if_neg h1]
    by_cases h2 : env.outputExists = true ∧ ¬ (overwrite = true)
    · rw [if_pos h2]
      simp [progressCounts]
    · rw [if_neg h2]
      rcases env.probeFault with _ | e
      · rcases env.encodeFault with _ | e2
        · by_cases h3 : env.exitCode ≠ 0
          · rw [if_pos h3]
            simp [progressCounts]
          · rw [if_neg h3]
            simp [progressCounts]
        · simp [progressCounts]
      · simp [progressCounts]

theorem taskEvents_progress (cfg : ProfileCfg) (speed : ℚ)
    (normalize overwrite : Bool) (idx total : ℕ) (t : ConvTask) (env : TaskEnv) :
    progressCounts (taskEvents cfg speed normalize overwrite idx total t env)
      = [idx - 1, idx] := by
  have hb := taskBody_no_progress cfg speed normalize overwrite t env
  unfold progressCounts at hb ⊢
  simp only [taskEvents, List.filterMap_cons, List.filterMap_append, hb]
  simp

theorem runFrom_progress (cfg : ProfileCfg) (speed : ℚ)
    (normalize overwrite : Bool) (total : ℕ)
    (tasks : List (ConvTask × TaskEnv)) : ∀ idx : ℕ,
    progressCounts (runFrom cfg speed normalize overwrite total idx tasks)
      = countsFrom idx tasks.length := by
  induction tasks with
  | nil => intro idx; simp [runFrom, progressCounts, countsFrom]
  | cons p rest ih =>
    intro idx
    rcases p with ⟨t, env⟩
    have ht := taskEvents_progress cfg speed normalize overwrite idx total t env
    unfold progressCounts at ht ⊢
    simp only [runFrom, List.filterMap_append, ht]
    have hr := ih (idx + 1)
    unfold progressCounts at hr
    rw [hr]
    simp [countsFrom]

theorem countsFrom_chain_aux (k : ℕ) : ∀ idx : ℕ,
    List.Chain' (· ≤ ·) (idx :: countsFrom (idx + 1) k) := by
  induction k with
  | zero => intro idx; simp [countsFrom]
  | succ k ih =>
    intro idx
    simp only [countsFrom, Nat.add_sub_cancel, List.chain'_cons]
    exact ⟨le_refl idx, by simpa using ih (idx + 1)⟩

theorem countsFrom_chain (k idx : ℕ) :
    List.Chain' (· ≤ ·) (countsFrom idx k) := by
  cases k with
  | zero => simp [countsFrom]
  | succ k =>
    simp only [countsFrom, List.chain'_cons]
    exact ⟨Nat.sub_le idx 1, countsFrom_chain_aux k idx⟩

theorem countsFrom_head (k idx : ℕ) (h : 0 < k) :
    (countsFrom idx k).head? = some (idx - 1) := by
  cases k with
  | zero => omega
  | succ k => simp [countsFrom]

theorem countsFrom_last (k : ℕ) : ∀ idx : ℕ, 0 < k →
    (countsFrom idx k).getLast? = some (idx + k - 1) := by
  induction k with
  | zero => omega
  | succ k ih =>
    intro idx _
    cases k with
    | zero => simp [countsFrom]
    | succ k' =>
      have hrec := ih (idx + 1) (Nat.succ_pos k')
      simp only [countsFrom] at hrec ⊢
      rw [List.getLast?_cons_cons, List.getLast?_cons_cons, hrec]
      congr 1
      omega

theorem countsFrom_le (k : ℕ) : ∀ idx c : ℕ, c ∈ countsFrom idx k →
    c ≤ idx - 1 + k := by
  induction k with
  | zero => intro idx c h; simp [countsFrom] at h
  | succ k ih =>
    intro idx c h
    simp only [countsFrom, List.mem_cons] at h
    rcases h with rfl | rfl | h
    · omega
    · omega
    · have := ih (idx + 1) c h
      omega

theorem runFrom_done_mem (cfg : ProfileCfg) (speed : ℚ)
    (normalize overwrite : Bool) (total : ℕ)
    (tasks : List (ConvTask × TaskEnv)) : ∀ (idx i : ℕ), i < tasks.length →
    WorkerEvent.progress (idx + i) total
        ("Done " ++ toString (idx + i) ++ "/" ++ toString total)
      ∈ runFrom cfg speed normalize overwrite total idx tasks := by
  induction tasks with
  | nil =>
    intro idx i h
    simp at h
  | cons p rest ih =>
    intro idx i h
    rcases p with ⟨t, env⟩
    rcases i with _ | i
    · simp only [runFrom, List.mem_append]
      left
      simp [taskEvents]
    · simp only [runFrom, List.mem_append]
      right
      have hrec := ih (idx + 1) i (by simpa using h)
      rw [show idx + (i + 1) = idx + 1 + i by omega]
      exact hrec

theorem runFrom_mem_of_mem (cfg : ProfileCfg) (speed : ℚ)
    (normalize overwrite : Bool) (total : ℕ) (t : ConvTask) (env : TaskEnv)
    (ev : WorkerEvent)
    (hev : ∀ idx, ev ∈ taskEvents cfg speed normalize overwrite idx total t env) :
    ∀ (tasks : List (ConvTask × TaskEnv)) (idx : ℕ), (t, env) ∈ tasks →
      ev ∈ runFrom cfg speed normalize overwrite total idx tasks := by
  intro tasks
  induction tasks with
  | nil =>
    intro idx h
    simp at h
  | cons p rest ih =>
    intro idx h
    rcases List.mem_cons.mp h with heq | htail
    · rcases heq.symm with rfl
      simp only [runFrom, List.mem_append]
      exact Or.inl (hev idx)
    · rcases p with ⟨t2, env2⟩
      simp only [runFrom, List.mem_append]
      exact Or.inr (ih (idx + 1) htail)

theorem taskEvents_error_of_fault (cfg : ProfileCfg) (speed : ℚ)
    (normalize overwrite : Bool) (idx total : ℕ) (t : ConvTask) (env : TaskEnv)
    (e : String)
    (hin : env.inputExists = true)
    (hskip : env.outputExists = false ∨ overwrite = true)
    (hfault : env.probeFault = some e ∨
      (env.probeFault = none ∧ env.encodeFault = some e)) :
    WorkerEvent.log ("[ERROR] " ++ basename t.inp ++ ": " ++ e)
      ∈ taskEvents cfg speed normalize overwrite idx total t env := by
  unfold taskEvents taskBodyEvents
  rw [if_neg (by simp [hin])]
  rw [if_neg (by rcases hskip with h | h <;> simp [h])]
  rcases hfault with hp | ⟨hp, he⟩
  · rw [hp]
    simp
  · rw [hp, he]
    simp

/-- C3: any fault occurring while the Batch Runner processes a task
(modelled at the two external-process call sites of the body, the sites the
skip checks do not guard away) is caught inside the per-task loop and logged
as an ERROR line, and the batch still runs to completion: its progress trace
ends at count `n`, so no fault aborts the batch or escapes the runner. -/
theorem worker_fault_logged_and_continues (cfg : ProfileCfg) (speed : ℚ)
    (normalize overwrite : Bool) (tasks : List (ConvTask × TaskEnv))
    (t : ConvTask) (env : TaskEnv) (e : String)
    (hmem : (t, env) ∈ tasks)
    (hin : env.inputExists = true)
    (hskip : env.outputExists = false ∨ overwrite = true)
    (hfault : env.probeFault = some e ∨
      (env.probeFault = none ∧ env.encodeFault = some e)) :
    WorkerEvent.log ("[ERROR] " ++ basename t.inp ++ ": " ++ e)
      ∈ workerRun cfg speed normalize overwrite tasks ∧
    (progressCounts (workerRun cfg speed normalize overwrite tasks)).getLast?
      = some tasks.length := by
  constructor
  · exact runFrom_mem_of_mem cfg speed normalize overwrite tasks.length t env _
      (fun idx => taskEvents_error_of_fault cfg speed normalize overwrite idx
        tasks.length t env e hin hskip hfault) tasks 1 hmem
  · rw [workerRun, runFrom_progress]
    have hpos : 0 < tasks.length := by
      cases tasks with
      | nil => simp at hmem
      | cons p rest => simp
    rw [countsFrom_last tasks.length 1 hpos]
    congr 1
    omega

def sampleTask : ConvTask := ⟨"a.mp4", "out/a_ppt.mp4"⟩

def envProbeFault : TaskEnv := ⟨true, false, true, some "boom", none, 0, ""⟩

def envPlain : TaskEnv := ⟨true, false, true, none, none, 0, ""⟩

def envExistingOut : TaskEnv := ⟨true, true, true, none, none, 0, ""⟩

theorem worker_fault_logged_and_continues_witness :
    WorkerEvent.log ("[ERROR] " ++ basename sampleTask.inp ++ ": " ++ "boom")
      ∈ workerRun profileMostCompatible 1 false true [(sampleTask, envProbeFault)] ∧
    (progressCounts
      (workerRun profileMostCompatible 1 false true [(sampleTask, envProbeFault)])).getLast?
      = some 1 :=
  worker_fault_logged_and_continues profileMostCompatible 1 false true
    [(sampleTask, envProbeFault)] sampleTask envProbeFault "boom"
    (by simp) rfl (Or.inl rfl) (Or.inl rfl)

/-- C4: the Batch Runner emits a progress update after each task regardless
of outcome — for every task index `i < n` and every per-task oracle the
trace contains the task's `Done` progress event with completed count `i+1`
of total `n` — and after the last task the reported completed count equals
`n`, the total count. -/
theorem worker_progress_after_each (cfg : ProfileCfg) (speed : ℚ)
    (normalize overwrite : Bool) (tasks : List (ConvTask × TaskEnv))
    (hne : tasks ≠ []) :
    (∀ i, i < tasks.length →
      WorkerEvent.progress (1 + i) tasks.length
          ("Done " ++ toString (1 + i) ++ "/" ++ toString tasks.length)
        ∈ workerRun cfg speed normalize overwrite tasks) ∧
    (progressCounts (workerRun cfg speed normalize overwrite tasks)).getLast?
      = some tasks.length := by
  constructor
  · intro i hi
    exact runFrom_done_mem cfg speed normalize overwrite tasks.length tasks 1 i hi
  · rw [workerRun, runFrom_progress]
    have hpos : 0 < tasks.length := List.length_pos.mpr hne
    rw [countsFrom_last tasks.length 1 hpos]
    congr 1
    omega

theorem worker_progress_after_each_witness :
    (∀ i, i < List.length [(sampleTask, envPlain)] →
      WorkerEvent.progress (1 + i) (List.length [(sampleTask, envPlain)])
          ("Done " ++ toString (1 + i) ++ "/" ++
            toString (List.length [(sampleTask, envPlain)]))
        ∈ workerRun profileMostCompatible 1 false true [(sampleTask, envPlain)]) ∧
    (progressCounts
      (workerRun profileMostCompatible 1 false true [(sampleTask, envPlain)])).getLast?
      = some (List.length [(sampleTask, envPlain)]) :=
  worker_progress_after_each profileMostCompatible 1 false true
    [(sampleTask, envPlain)] (by simp)

/-- C10 (amended to nonempty task lists; over zero tasks the runner makes no
progress callback at all, so the count sequence is empty): the sequence of
completed counts passed to the progress callback over a whole run starts at
0, is non-decreasing, never exceeds `n`, and its last element is `n`. -/
theorem worker_progress_counts_monotone (cfg : ProfileCfg) (speed : ℚ)
    (normalize overwrite : Bool) (tasks : List (ConvTask × TaskEnv))
    (hne : tasks ≠ []) :
    (progressCounts (workerRun cfg speed normalize overwrite tasks)).head?
      = some 0 ∧
    List.Chain' (· ≤ ·)
      (progressCounts (workerRun cfg speed normalize overwrite tasks)) ∧
    (∀ c ∈ progressCounts (workerRun cfg speed normalize overwrite tasks),
      c ≤ tasks.length) ∧
    (progressCounts (workerRun cfg speed normalize overwrite tasks)).getLast?
      = some tasks.length := by
  have hpos : 0 < tasks.length := List.length_pos.mpr hne
  rw [workerRun, runFrom_progress]
  refine ⟨?_, countsFrom_chain tasks.length 1, ?_, ?_⟩
  · rw [countsFrom_head tasks.length 1 hpos]
  · intro c hc
    have := countsFrom_le tasks.length 1 c hc
    omega
  · rw [countsFrom_last tasks.length 1 hpos]
    congr 1
    omega

/-- C10, as stated, fails at the empty task list: the run over zero tasks
passes no count at all to the progress callback, so the count sequence does
not start at 0 and has no last element equal to the total. -/
theorem worker_progress_counts_empty_counterexample :
    ¬ ((progressCounts
          (workerRun profileMostCompatible 1 false true [])).head? = some 0 ∧
      List.Chain' (· ≤ ·)
        (progressCounts (workerRun profileMostCompatible 1 false true [])) ∧
      (∀ c ∈ progressCounts (workerRun profileMostCompatible 1 false true []),
        c ≤ List.length ([] : List (ConvTask × TaskEnv))) ∧
      (progressCounts
          (workerRun profileMostCompatible 1 false true [])).getLast?
        = some (List.length ([] : List (ConvTask × TaskEnv)))) := by
  intro h
  have h1 := h.1
  simp [workerRun, runFrom, progressCounts] at h1

theorem worker_progress_counts_monotone_witness :
    (progressCounts
        (workerRun profileMostCompatible 1 false true
          [(sampleTask, envPlain)])).head? = some 0 ∧
    List.Chain' (· ≤ ·)
      (progressCounts
        (workerRun profileMostCompatible 1 false true [(sampleTask, envPlain)])) ∧
    (∀ c ∈ progressCounts
        (workerRun profileMostCompatible 1 false true [(sampleTask, envPlain)]),
      c ≤ List.length [(sampleTask, envPlain)]) ∧
    (progressCounts
        (workerRun profileMostCompatible 1 false true
          [(sampleTask, envPlain)])).getLast?
      = some (List.length [(sampleTask, envPlain)]) :=
  worker_progress_counts_monotone profileMostCompatible 1 false true
    [(sampleTask, envPlain)] (by simp)

/-- C8: when a task's output path already exists and the overwrite flag is
false, the iteration emits a SKIP log line, never invokes the external
encode tool for that task, and the loop advances to the next task. -/
theorem worker_skip_existing_output (cfg : ProfileCfg) (speed : ℚ)
    (normalize : Bool) (overwrite : Bool) (idx total : ℕ)
    (t : ConvTask) (env : TaskEnv) (rest : List (ConvTask × TaskEnv))
    (hout : env.outputExists = true) (hov : overwrite = false) :
    (∃ m, WorkerEvent.log ("[SKIP] " ++ m)
        ∈ taskEvents cfg speed normalize overwrite idx total t env) ∧
    (∀ c, WorkerEvent.encode c
        ∉ taskEvents cfg speed normalize overwrite idx total t env) ∧
    runFrom cfg speed normalize overwrite total idx ((t, env) :: rest) =
      taskEvents cfg speed normalize overwrite idx total t env ++
        runFrom cfg speed normalize overwrite total (idx + 1) rest := by
  subst hov
  have hbody : taskBodyEvents cfg speed normalize false t env
      = [.log ("[SKIP] Not found: " ++ t.inp)] ∨
      taskBodyEvents cfg speed normalize false t env
      = [.log ("[SKIP] Exists (enable Overwrite to replace): " ++ t.outp)] := by
    unfold taskBodyEvents
    by_cases h1 : ¬ (env.inputExists = true)
    · left
      rw [if_pos h1]
    · right
      rw [if_neg h1, if_pos ⟨hout, by simp⟩]
  refine ⟨?_, ?_, rfl⟩
  · rcases hbody with hb | hb
    · refine ⟨"Not found: " ++ t.inp, ?_⟩
      have hlit : "[SKIP] " ++ "Not found: " = "[SKIP] Not found: " := by decide
      have hsplit : "[SKIP] " ++ ("Not found: " ++ t.inp)
          = "[SKIP] Not found: " ++ t.inp := by
        rw [← String.append_assoc, hlit]
      unfold taskEvents
      rw [hb, hsplit]
      simp
    · refine ⟨"Exists (enable Overwrite to replace): " ++ t.outp, ?_⟩
      have hlit : "[SKIP] " ++ "Exists (enable Overwrite to replace): "
          = "[SKIP] Exists (enable Overwrite to replace): " := by decide
      have hsplit : "[SKIP] " ++ ("Exists (enable Overwrite to replace): " ++ t.outp)
          = "[SKIP] Exists (enable Overwrite to replace): " ++ t.outp := by
        rw [← String.append_assoc, hlit]
      unfold taskEvents
      rw [hb, hsplit]
      simp
  · intro c
    rcases hbody with hb | hb <;>
      · unfold taskEvents
        rw [hb]
        simp

theorem worker_skip_existing_output_witness :
    (∃ m, WorkerEvent.log ("[SKIP] " ++ m)
        ∈ taskEvents profileMostCompatible 1 false false 1 1
            sampleTask envExistingOut) ∧
    (∀ c, WorkerEvent.encode c
        ∉ taskEvents profileMostCompatible 1 false false 1 1
            sampleTask envExistingOut) ∧
    runFrom profileMostCompatible 1 false false 1 1
        [(sampleTask, envExistingOut)] =
      taskEvents profileMostCompatible 1 false false 1 1
          sampleTask envExistingOut ++
        runFrom profileMostCompatible 1 false false 1 (1 + 1) [] :=
  worker_skip_existing_output profileMostCompatible 1 false false 1 1
    sampleTask envExistingOut [] rfl rfl

end Mp4Conv
